import Mathlib

/-!
Verification of `dlopt/optimization.py`.

The file embeds the concrete parts of the module — the `Problem`
constructor's target validation and the whole `Solution` value type with
its `comparedTo` dominance comparison — as executable Lean definitions,
and proves the specified properties about them.

Python dictionaries are modelled as association lists with string keys;
every dictionary the program builds has pairwise-distinct keys, which
theorems assume through `NodupKeys` hypotheses where it matters.
Python exceptions are modelled with an explicit error type: queries
return `Except Err α`, and mutating methods return the post-call state
paired with `Option Err` (a raise happens before any mutation, so the
state component equals the input state on error).  Numeric fitness
values and target directions are modelled as integers.
-/

/-- The distinct exception messages raised by `optimization.py`, plus the
implicit `KeyError` a Python mapping lookup raises on a missing key. -/
inductive Err where
  | notComparable
  | targetMismatch
  | invalidTarget
  | keyError (key : String)
deriving DecidableEq

/-- A Python dict with string keys, as an association list. -/
abbrev Dict (α : Type) := List (String × α)

/-- `d[k]` as an optional lookup: the value at the first matching key. -/
def dlook {α : Type} (k : String) : Dict α → Option α
  | [] => none
  | p :: ps => if p.1 = k then some p.2 else dlook k ps

/-- The list of keys of a dict. -/
def keysD {α : Type} (d : Dict α) : List String := d.map Prod.fst

/-- `d[k] = v`: replace the value at an existing key in place, otherwise
append the new pair at the end (Python dict update semantics). -/
def insertD {α : Type} : Dict α → String → α → Dict α
  | [], k, v => [(k, v)]
  | p :: ps, k, v => if p.1 = k then (k, v) :: ps else p :: insertD ps k v

/-- Keys are pairwise distinct — true of every Python dict. -/
def NodupKeys {α : Type} (d : Dict α) : Prop := (keysD d).Nodup

/-- `d[k]` as Python evaluates it: raises `KeyError` on a missing key. -/
def lookupE {α : Type} (d : Dict α) (k : String) : Except Err α :=
  match dlook k d with
  | some v => Except.ok v
  | none => Except.error (Err.keyError k)

/-- The `Problem` base class: stores its dataset (opaque here), the
target-direction mapping and the verbosity level.  The abstract methods
(`evaluate`, `next_solution`, …) only raise and carry no behaviour. -/
structure Problem where
  data : Unit
  targets : Dict Int
  verbose : Int
deriving DecidableEq

/-- The validation loop of `Problem.__init__`:
`for t in targets: if np.abs(targets[t]) != 1: raise`. -/
def checkTargets : Dict Int → Option Err
  | [] => none
  | p :: ps => if p.2.natAbs ≠ 1 then some Err.invalidTarget else checkTargets ps

/-- `Problem.__init__`: validates every target direction, then stores the
fields unchanged. -/
def Problem.init (data : Unit) (targets : Dict Int) (verbose : Int) :
    Except Err Problem :=
  match checkTargets targets with
  | some e => Except.error e
  | none => Except.ok { data := data, targets := targets, verbose := verbose }

/-- The `Solution` value object: target directions, recorded fitness per
target, and per-variable encoded values (`none` models Python `None`). -/
structure Solution where
  targets : Dict Int
  fitness : Dict Int
  encoded : Dict (Option Int)
deriving DecidableEq

/-- `Solution.__init__`: keeps the given targets, starts with an empty
fitness dict, and sets every declared variable's encoded slot to `None`. -/
def Solution.init (targets : Dict Int) (variable_names : List String) :
    Solution :=
  { targets := targets
    fitness := []
    encoded := variable_names.foldl (fun acc v => insertD acc v none) [] }

/-- `Solution.get_encoded`: plain dict lookup (raises `KeyError` on an
undeclared variable). -/
def Solution.get_encoded (s : Solution) (variable_name : String) :
    Except Err (Option Int) :=
  lookupE s.encoded variable_name

/-- `Solution.set_encoded`: unconditional dict update. -/
def Solution.set_encoded (s : Solution) (variable_name : String)
    (value : Option Int) : Solution :=
  { s with encoded := insertD s.encoded variable_name value }

/-- `Solution.get_fitness`: target-membership check first ("'target' does
not match" on failure), then a raw lookup in `fitness` (a `KeyError` when
the declared target has no recorded value). -/
def Solution.get_fitness (s : Solution) (target : String) : Except Err Int :=
  if (dlook target s.targets).isSome then
    match dlook target s.fitness with
    | some v => Except.ok v
    | none => Except.error (Err.keyError target)
  else Except.error Err.targetMismatch

/-- `Solution.set_fitness`: same membership check, then updates `fitness`.
Returns the post-call state and the raised error, if any. -/
def Solution.set_fitness (s : Solution) (target : String) (value : Int) :
    Solution × Option Err :=
  if (dlook target s.targets).isSome then
    ({ s with fitness := insertD s.fitness target value }, none)
  else (s, some Err.targetMismatch)

/-- `Solution.clear_fitness`: `for target in self.targets: self.fitness = {}`
— the body runs once per declared target, so the fitness dict is reset
only when `targets` is non-empty. -/
def Solution.clear_fitness (s : Solution) : Solution :=
  s.targets.foldl (fun acc _ => { acc with fitness := [] }) s

/-- `Solution.is_evaluated`: `False` when fewer fitness entries than
targets, otherwise `True` iff every declared target has a fitness entry. -/
def Solution.is_evaluated (s : Solution) : Bool :=
  if s.fitness.length < s.targets.length then false
  else s.targets.all (fun p => (dlook p.1 s.fitness).isSome)

/-- The loop of `comparedTo`: for each recorded fitness key `t` of `a`
(in order), `a.fitness[t] * a.targets[t] - b.fitness[t] * b.targets[t]`,
with the Python subexpression evaluation order for the raised `KeyError`s. -/
def compDiffs (a b : Solution) : Dict Int → Except Err (List Int)
  | [] => Except.ok []
  | p :: ps =>
    match lookupE a.targets p.1 with
    | Except.error e => Except.error e
    | Except.ok sa =>
      match lookupE b.fitness p.1 with
      | Except.error e => Except.error e
      | Except.ok fb =>
        match lookupE b.targets p.1 with
        | Except.error e => Except.error e
        | Except.ok tb =>
          match compDiffs a b ps with
          | Except.error e => Except.error e
          | Except.ok rest => Except.ok ((p.2 * sa - fb * tb) :: rest)

/-- `Solution.comparedTo`.  First guard:
`len(set(a.targets.items()) & set(b.targets.items())) != len(a.targets)` —
with distinct keys this is the number of items of `a.targets` that also
occur in `b.targets`.  Second guard compares the fitness entry counts.
Then the signed differences are collected and `a_up - b_up` returned. -/
def Solution.comparedTo (a b : Solution) : Except Err Int :=
  if (a.targets.filter (fun p => decide (p ∈ b.targets))).length ≠
      a.targets.length then
    Except.error Err.notComparable
  else if a.fitness.length ≠ b.fitness.length then
    Except.error Err.notComparable
  else
    match compDiffs a b a.fitness with
    | Except.error e => Except.error e
    | Except.ok diffs =>
      Except.ok ((diffs.countP (fun d => decide (0 < d)) : Int) -
                 (diffs.countP (fun d => decide (d < 0)) : Int))

/-- `Solution.__eq__`: true iff `comparedTo` returns 0. -/
def Solution.eqOp (a b : Solution) : Except Err Bool :=
  match a.comparedTo b with
  | Except.error e => Except.error e
  | Except.ok c => Except.ok (if c = 0 then true else false)

/-- `Solution.__lt__`: true iff `comparedTo` returns a negative value. -/
def Solution.ltOp (a b : Solution) : Except Err Bool :=
  match a.comparedTo b with
  | Except.error e => Except.error e
  | Except.ok c => Except.ok (if c < 0 then true else false)

/-- `Solution.__gt__`: true iff `comparedTo` returns a positive value. -/
def Solution.gtOp (a b : Solution) : Except Err Bool :=
  match a.comparedTo b with
  | Except.error e => Except.error e
  | Except.ok c => Except.ok (if 0 < c then true else false)

/-- `Solution.__le__`: true iff `comparedTo` returns a non-positive value. -/
def Solution.leOp (a b : Solution) : Except Err Bool :=
  match a.comparedTo b with
  | Except.error e => Except.error e
  | Except.ok c => Except.ok (if c ≤ 0 then true else false)

/-- `Solution.__ge__`: true iff `comparedTo` returns a non-negative value. -/
def Solution.geOp (a b : Solution) : Except Err Bool :=
  match a.comparedTo b with
  | Except.error e => Except.error e
  | Except.ok c => Except.ok (if 0 ≤ c then true else false)

/-- The invariant of claim C6: every recorded fitness key is a declared
target key. -/
def FitnessInv (s : Solution) : Prop := ∀ q ∈ s.fitness, q.1 ∈ keysD s.targets

/-- A caller performing `set_fitness(name, value)` once for each pair in
the list, stopping at the first raised error. -/
def setFitnessList : List (String × Int) → Solution → Solution × Option Err
  | [], s => (s, none)
  | p :: ps, s =>
    match Solution.set_fitness s p.1 p.2 with
    | (s1, none) => setFitnessList ps s1
    | (s1, some e) => (s1, some e)

/-! ### Dictionary lemmas -/

theorem mem_keysD_of_mem {α : Type} {d : Dict α} {q : String × α} (h : q ∈ d) :
    q.1 ∈ keysD d := List.mem_map_of_mem Prod.fst h

theorem dlook_mem {α : Type} {k : String} {v : α} {d : Dict α}
    (h : dlook k d = some v) : (k, v) ∈ d := by
  induction d with
  | nil => simp [dlook] at h
  | cons p ps ih =>
    rw [dlook] at h
    by_cases hk : p.1 = k
    · rw [if_pos hk, Option.some.injEq] at h
      subst hk
      subst h
      exact List.mem_cons_self _ _
    · exact List.mem_cons_of_mem _ (ih (by rwa [if_neg hk] at h))

theorem dlook_isSome_iff {α : Type} {k : String} {d : Dict α} :
    (dlook k d).isSome = true ↔ k ∈ keysD d := by
  induction d with
  | nil => simp [dlook, keysD]
  | cons p ps ih =>
    simp only [dlook, keysD, List.map_cons, List.mem_cons] at ih ⊢
    by_cases hk : p.1 = k
    · simp [hk]
    · rw [if_neg hk, ih]
      constructor
      · exact Or.inr
      · rintro (h1 | h2)
        · exact absurd h1.symm hk
        · exact h2

theorem dlook_of_mem {α : Type} {k : String} {v : α} {d : Dict α}
    (hnd : NodupKeys d) (h : (k, v) ∈ d) : dlook k d = some v := by
  induction d with
  | nil => simp at h
  | cons p ps ih =>
    rw [NodupKeys, keysD, List.map_cons, List.nodup_cons] at hnd
    rw [dlook]
    rcases List.mem_cons.mp h with heq | hmem
    · rw [if_pos (congrArg Prod.fst heq.symm)]
      rw [← heq]
    · have hk : p.1 ≠ k := by
        intro hc
        exact hnd.1 (hc ▸ mem_keysD_of_mem hmem)
      rw [if_neg hk]
      exact ih hnd.2 hmem

theorem mem_insertD {α : Type} {d : Dict α} {k : String} {v : α}
    {q : String × α} (h : q ∈ insertD d k v) : q = (k, v) ∨ q ∈ d := by
  induction d with
  | nil => simpa [insertD] using h
  | cons p ps ih =>
    rw [insertD] at h
    by_cases hk : p.1 = k
    · rw [if_pos hk] at h
      rcases List.mem_cons.mp h with heq | hmem
      · exact Or.inl heq
      · exact Or.inr (List.mem_cons_of_mem _ hmem)
    · rw [if_neg hk] at h
      rcases List.mem_cons.mp h with heq | hmem
      · exact Or.inr (heq ▸ List.mem_cons_self _ _)
      · rcases ih hmem with h1 | h2
        · exact Or.inl h1
        · exact Or.inr (List.mem_cons_of_mem _ h2)

theorem keysD_insertD {α : Type} {d : Dict α} {k x : String} {v : α} :
    x ∈ keysD (insertD d k v) ↔ x = k ∨ x ∈ keysD d := by
  induction d with
  | nil => simp [insertD, keysD]
  | cons p ps ih =>
    rw [insertD]
    by_cases hk : p.1 = k
    · simp [hk, keysD]
    · simp only [if_neg hk, keysD, List.map_cons, List.mem_cons]
      rw [keysD] at ih
      constructor
      · rintro (h1 | h2)
        · exact Or.inr (Or.inl h1)
        · rcases ih.mp h2 with ha | hb
          · exact Or.inl ha
          · exact Or.inr (Or.inr hb)
      · rintro (h1 | h2 | h3)
        · exact Or.inr (ih.mpr (Or.inl h1))
        · exact Or.inl h2
        · exact Or.inr (ih.mpr (Or.inr h3))

theorem dlook_insertD_self {α : Type} {d : Dict α} {k : String} {v : α} :
    dlook k (insertD d k v) = some v := by
  induction d with
  | nil => simp [insertD, dlook]
  | cons p ps ih =>
    rw [insertD]
    by_cases hk : p.1 = k
    · rw [if_pos hk, dlook, if_pos rfl]
    · rw [if_neg hk, dlook, if_neg hk]
      exact ih

theorem nodupKeys_insertD {α : Type} {d : Dict α} {k : String} {v : α}
    (hnd : NodupKeys d) : NodupKeys (insertD d k v) := by
  induction d with
  | nil => simp [insertD, NodupKeys, keysD]
  | cons p ps ih =>
    rw [NodupKeys, keysD, List.map_cons, List.nodup_cons] at hnd
    rw [insertD]
    by_cases hk : p.1 = k
    · rw [if_pos hk, NodupKeys, keysD, List.map_cons, List.nodup_cons]
      exact ⟨fun hc => hnd.1 (hk ▸ hc), hnd.2⟩
    · rw [if_neg hk, NodupKeys, keysD, List.map_cons, List.nodup_cons]
      refine ⟨fun hc => ?_, ih hnd.2⟩
      rcases keysD_insertD.mp hc with h1 | h2
      · exact hk h1
      · exact hnd.1 h2

/-- `is_evaluated` is exactly "every declared target has a recorded
fitness value" (the length guard is subsumed once targets keys are
distinct). -/
theorem is_evaluated_iff_aux (s : Solution) (hnd : NodupKeys s.targets) :
    s.is_evaluated = true ↔
      ∀ p ∈ s.targets, (dlook p.1 s.fitness).isSome = true := by
  rw [Solution.is_evaluated]
  by_cases hlen : s.fitness.length < s.targets.length
  · rw [if_pos hlen]
    constructor
    · intro h; exact absurd h (by simp)
    · intro hall
      exfalso
      have hsub : keysD s.targets ⊆ keysD s.fitness := by
        intro k hk
        rcases List.mem_map.mp hk with ⟨p, hp, hpk⟩
        exact hpk ▸ dlook_isSome_iff.mp (hall p hp)
      have hle : (keysD s.targets).length ≤ (keysD s.fitness).length :=
        (List.Nodup.subperm hnd hsub).length_le
      rw [keysD, keysD, List.length_map, List.length_map] at hle
      omega
  · rw [if_neg hlen]
    exact List.all_eq_true

/-- The `clear_fitness` fold leaves the solution unchanged when `targets`
is empty and resets `fitness` otherwise. -/
theorem clear_fitness_eq (s : Solution) :
    s.clear_fitness = if s.targets.isEmpty then s else { s with fitness := [] } := by
  rw [Solution.clear_fitness]
  have hgen : ∀ (l : Dict Int) (a : Solution),
      l.foldl (fun acc _ => { acc with fitness := [] }) a =
        if l.isEmpty then a else { a with fitness := [] } := by
    intro l
    induction l with
    | nil => intro a; rfl
    | cons p ps ih =>
      intro a
      rw [List.foldl_cons, ih]
      by_cases hps : ps.isEmpty
      · simp [hps]
      · simp [hps]
  exact hgen s.targets s

theorem encFold_values (vs : List String) (d : Dict (Option Int))
    (hd : ∀ q ∈ d, q.2 = none) :
    ∀ q ∈ vs.foldl (fun acc v => insertD acc v none) d, q.2 = none := by
  induction vs generalizing d with
  | nil => exact hd
  | cons x xs ih =>
    intro q hq
    rw [List.foldl_cons] at hq
    refine ih (insertD d x none) ?_ q hq
    intro r hr
    rcases mem_insertD hr with h1 | h2
    · rw [h1]
    · exact hd r h2

theorem encFold_keys (vs : List String) (d : Dict (Option Int)) (v : String)
    (h : v ∈ vs ∨ v ∈ keysD d) :
    v ∈ keysD (vs.foldl (fun acc x => insertD acc x none) d) := by
  induction vs generalizing d with
  | nil =>
    rcases h with h1 | h2
    · simp at h1
    · exact h2
  | cons x xs ih =>
    rw [List.foldl_cons]
    rcases h with h1 | h2
    · rcases List.mem_cons.mp h1 with hx | hxs
      · exact ih _ (Or.inr (keysD_insertD.mpr (Or.inl hx)))
      · exact ih _ (Or.inl hxs)
    · exact ih _ (Or.inr (keysD_insertD.mpr (Or.inr h2)))

theorem setFitnessList_ok (l : List (String × Int)) :
    ∀ s : Solution, (∀ p ∈ l, p.1 ∈ keysD s.targets) →
    ∃ s1, setFitnessList l s = (s1, none) ∧ s1.targets = s.targets ∧
      ∀ k, (k ∈ keysD s.fitness ∨ k ∈ l.map Prod.fst) →
        k ∈ keysD s1.fitness := by
  induction l with
  | nil =>
    intro s h
    refine ⟨s, rfl, rfl, fun k hk => ?_⟩
    rcases hk with h1 | h2
    · exact h1
    · simp at h2
  | cons p ps ih =>
    intro s h
    have hp : (dlook p.1 s.targets).isSome = true :=
      dlook_isSome_iff.mpr (h p (List.mem_cons_self _ _))
    have hsf : Solution.set_fitness s p.1 p.2 =
        ({ s with fitness := insertD s.fitness p.1 p.2 }, none) := by
      rw [Solution.set_fitness, if_pos hp]
    rw [setFitnessList, hsf]
    obtain ⟨s2, hs2, ht2, hk2⟩ :=
      ih { s with fitness := insertD s.fitness p.1 p.2 }
        (fun q hq => h q (List.mem_cons_of_mem _ hq))
    refine ⟨s2, hs2, ht2, fun k hk => ?_⟩
    rcases hk with h1 | h2
    · exact hk2 k (Or.inl (keysD_insertD.mpr (Or.inr h1)))
    · rw [List.map_cons, List.mem_cons] at h2
      rcases h2 with h3 | h4
      · exact hk2 k (Or.inl (keysD_insertD.mpr (Or.inl h3)))
      · exact hk2 k (Or.inr h4)

theorem checkTargets_none_iff (ts : Dict Int) :
    checkTargets ts = none ↔ ∀ p ∈ ts, p.2 = 1 ∨ p.2 = -1 := by
  induction ts with
  | nil => simp [checkTargets]
  | cons p ps ih =>
    rw [checkTargets]
    by_cases h : p.2.natAbs ≠ 1
    · rw [if_pos h]
      constructor
      · intro hc
        cases hc
      · intro hall
        exfalso
        rcases hall p (List.mem_cons_self _ _) with h1 | h1 <;>
          rw [h1] at h <;> simp at h
    · rw [if_neg h, ih]
      push_neg at h
      have hp : p.2 = 1 ∨ p.2 = -1 := by
        rcases Int.natAbs_eq_iff.mp h with h1 | h1
        · exact Or.inl (by exact_mod_cast h1)
        · exact Or.inr (by exact_mod_cast h1)
      constructor
      · intro hall q hq
        rcases List.mem_cons.mp hq with he | hm
        · rw [he]
          exact hp
        · exact hall q hm
      · intro hall q hq
        exact hall q (List.mem_cons_of_mem _ hq)

theorem checkTargets_some (ts : Dict Int) (e : Err)
    (h : checkTargets ts = some e) : e = Err.invalidTarget := by
  induction ts with
  | nil => simp [checkTargets] at h
  | cons p ps ih =>
    rw [checkTargets] at h
    by_cases hc : p.2.natAbs ≠ 1
    · rw [if_pos hc] at h
      injection h with h2
      exact h2.symm
    · rw [if_neg hc] at h
      exact ih h

/-! ### Claim theorems -/

/-- C5: constructing a `Problem` fails with the direction-validation error
iff some target direction differs from +1 and -1; with all directions
exactly ±1 the construction succeeds and stores the mapping unchanged. -/
theorem problem_init_validates_directions (data : Unit) (ts : Dict Int)
    (verbose : Int) :
    ((∃ p ∈ ts, p.2 ≠ 1 ∧ p.2 ≠ -1) →
      Problem.init data ts verbose = Except.error Err.invalidTarget) ∧
    ((∀ p ∈ ts, p.2 = 1 ∨ p.2 = -1) →
      Problem.init data ts verbose =
        Except.ok { data := data, targets := ts, verbose := verbose }) := by
  constructor
  · rintro ⟨p, hp, h1, h2⟩
    have hne : checkTargets ts ≠ none := by
      intro hc
      rcases (checkTargets_none_iff ts).mp hc p hp with h | h
      · exact h1 h
      · exact h2 h
    cases ho : checkTargets ts with
    | none => exact absurd ho hne
    | some e =>
      unfold Problem.init
      rw [ho, checkTargets_some ts e ho]
  · intro hall
    unfold Problem.init
    rw [(checkTargets_none_iff ts).mpr hall]

/-- Witness for C5 at concrete inputs: direction 2 is rejected, and a
mapping of ±1 directions is accepted and stored unchanged. -/
theorem problem_init_validates_directions_witness :
    Problem.init () [("p", 2)] 0 = Except.error Err.invalidTarget ∧
    Problem.init () [("p", 1), ("m", -1)] 0 =
      Except.ok { data := (), targets := [("p", 1), ("m", -1)], verbose := 0 } :=
  ⟨(problem_init_validates_directions () [("p", 2)] 0).1
      ⟨("p", 2), by decide, by decide, by decide⟩,
   (problem_init_validates_directions () [("p", 1), ("m", -1)] 0).2
      (by decide)⟩

/-- C6: fitness keys are a subset of target keys after construction and
after every set_fitness/clear_fitness call, and is_evaluated is true iff
every declared target has a recorded fitness entry. -/
theorem fitness_subset_invariant :
    (∀ (ts : Dict Int) (vs : List String), FitnessInv (Solution.init ts vs)) ∧
    (∀ (s : Solution) (t : String) (v : Int),
      FitnessInv s → FitnessInv (s.set_fitness t v).1) ∧
    (∀ s : Solution, FitnessInv s → FitnessInv s.clear_fitness) ∧
    (∀ s : Solution, NodupKeys s.targets →
      (s.is_evaluated = true ↔
        ∀ p ∈ s.targets, (dlook p.1 s.fitness).isSome = true)) := by
  refine ⟨?_, ?_, ?_, is_evaluated_iff_aux⟩
  · intro ts vs q hq
    simp [Solution.init] at hq
  · intro s t v hs
    rw [Solution.set_fitness]
    by_cases ht : (dlook t s.targets).isSome = true
    · rw [if_pos ht]
      intro q hq
      rcases mem_insertD hq with h1 | h2
      · rw [h1]
        exact dlook_isSome_iff.mp ht
      · exact hs q h2
    · rw [if_neg ht]
      exact hs
  · intro s hs
    rw [clear_fitness_eq]
    by_cases he : s.targets.isEmpty
    · rw [if_pos he]
      exact hs
    · rw [if_neg he]
      intro q hq
      exact absurd hq (List.not_mem_nil q)

/-- Witness for C6: the invariant holds concretely after a set_fitness
call on a freshly constructed solution. -/
theorem fitness_subset_invariant_witness :
    FitnessInv ((Solution.init [("p", 1)] []).set_fitness "p" 3).1 :=
  fitness_subset_invariant.2.1 (Solution.init [("p", 1)] []) "p" 3
    (by intro q hq; simp [Solution.init] at hq)

/-- C7 counterexample: with an empty target mapping, a freshly constructed
solution reports is_evaluated() = True, not False as the claim states. -/
theorem fresh_solution_empty_targets_evaluated :
    (Solution.init [] ["x"]).is_evaluated = true := by decide

/-- C7 (amended): for a non-empty target mapping, a freshly constructed
solution has every declared variable's encoded value set to None and
is_evaluated() false. -/
theorem fresh_solution_unevaluated (ts : Dict Int) (vs : List String)
    (hts : ts ≠ []) :
    (∀ v ∈ vs, dlook v (Solution.init ts vs).encoded = some none) ∧
    (Solution.init ts vs).is_evaluated = false := by
  constructor
  · intro v hv
    have hkey : v ∈ keysD (Solution.init ts vs).encoded :=
      encFold_keys vs [] v (Or.inl hv)
    have hsome := dlook_isSome_iff.mpr hkey
    cases ho : dlook v (Solution.init ts vs).encoded with
    | none => rw [ho] at hsome; cases hsome
    | some x =>
      have hmem := dlook_mem ho
      have hval := encFold_values vs []
        (by intro q hq; exact absurd hq (List.not_mem_nil q)) (v, x) hmem
      have hx : x = none := hval
      rw [hx]
  · have hlen : (Solution.init ts vs).fitness.length <
        (Solution.init ts vs).targets.length := by
      show ([] : Dict Int).length < ts.length
      rw [List.length_nil]
      exact List.length_pos.mpr hts
    rw [Solution.is_evaluated, if_pos hlen]

/-- Witness for the amended C7 at a concrete non-empty target mapping. -/
theorem fresh_solution_unevaluated_witness :
    (∀ v ∈ ["w"], dlook v (Solution.init [("p", 1)] ["w"]).encoded =
      some none) ∧
    (Solution.init [("p", 1)] ["w"]).is_evaluated = false :=
  fresh_solution_unevaluated [("p", 1)] ["w"] (by decide)

/-- C8 counterexample: with an empty target mapping, set_fitness has
vacuously been called for every declared target, yet after clear_fitness
the solution still reports is_evaluated() = True, not False. -/
theorem clear_fitness_empty_targets_evaluated :
    ((setFitnessList [] (Solution.init [] [])).1.clear_fitness).is_evaluated
      = true := by decide

/-- C8 (amended): for a solution whose (distinct-key) target mapping is
non-empty, calling set_fitness once for every declared target succeeds
and makes is_evaluated() true, and a subsequent clear_fitness makes it
false again. -/
theorem set_all_then_clear (s : Solution) (l : List (String × Int))
    (hnd : NodupKeys s.targets) (hne : s.targets ≠ [])
    (hcov : ∀ t ∈ keysD s.targets, t ∈ l.map Prod.fst)
    (hdecl : ∀ p ∈ l, p.1 ∈ keysD s.targets) :
    ∃ s1, setFitnessList l s = (s1, none) ∧ s1.is_evaluated = true ∧
      s1.clear_fitness.is_evaluated = false := by
  obtain ⟨s1, hrun, ht1, hk1⟩ := setFitnessList_ok l s hdecl
  have hnd1 : NodupKeys s1.targets := by rw [ht1]; exact hnd
  refine ⟨s1, hrun, ?_, ?_⟩
  · rw [is_evaluated_iff_aux s1 hnd1]
    intro p hp
    apply dlook_isSome_iff.mpr
    have hp1 : p.1 ∈ keysD s.targets := by
      have := mem_keysD_of_mem hp
      rwa [ht1] at this
    exact hk1 p.1 (Or.inr (hcov p.1 hp1))
  · have hne1 : ¬ s1.targets.isEmpty = true := by
      rw [ht1, List.isEmpty_iff]
      exact hne
    have hlen : ({ s1 with fitness := [] } : Solution).fitness.length <
        ({ s1 with fitness := [] } : Solution).targets.length := by
      show ([] : Dict Int).length < s1.targets.length
      rw [List.length_nil, ht1]
      exact List.length_pos.mpr hne
    rw [clear_fitness_eq, if_neg hne1, Solution.is_evaluated, if_pos hlen]

/-- Witness for the amended C8 at a concrete one-target solution. -/
theorem set_all_then_clear_witness :
    ∃ s1, setFitnessList [("p", 5)] (Solution.init [("p", 1)] []) =
        (s1, none) ∧
      s1.is_evaluated = true ∧ s1.clear_fitness.is_evaluated = false :=
  set_all_then_clear (Solution.init [("p", 1)] []) [("p", 5)]
    (by unfold NodupKeys; decide) (by decide) (by decide) (by decide)

/-- C9: get_fitness and set_fitness on an undeclared target name both fail
with the target-mismatch error, and set_fitness returns the solution
unchanged (its fitness mapping included). -/
theorem undeclared_target_mismatch (s : Solution) (t : String)
    (h : dlook t s.targets = none) :
    s.get_fitness t = Except.error Err.targetMismatch ∧
    ∀ v : Int, s.set_fitness t v = (s, some Err.targetMismatch) := by
  have hb : ¬ (dlook t s.targets).isSome = true := by rw [h]; simp
  constructor
  · rw [Solution.get_fitness, if_neg hb]
  · intro v
    rw [Solution.set_fitness, if_neg hb]

/-- Witness for C9 at a concrete undeclared name. -/
theorem undeclared_target_mismatch_witness :
    (Solution.init [("p", 1)] []).get_fitness "q" =
      Except.error Err.targetMismatch ∧
    (Solution.init [("p", 1)] []).set_fitness "q" 7 =
      (Solution.init [("p", 1)] [], some Err.targetMismatch) := by
  have h := undeclared_target_mismatch (Solution.init [("p", 1)] []) "q"
    (by decide)
  exact ⟨h.1, h.2 7⟩

/-- C10: on a declared target with no recorded fitness entry, get_fitness
fails with the KeyError of the fitness-dict lookup; the target-mismatch
error arises exactly on undeclared names. -/
theorem get_fitness_declared_missing (s : Solution) (t : String) :
    ((dlook t s.targets).isSome = true → dlook t s.fitness = none →
      s.get_fitness t = Except.error (Err.keyError t)) ∧
    (s.get_fitness t = Except.error Err.targetMismatch →
      dlook t s.targets = none) := by
  constructor
  · intro h1 h2
    rw [Solution.get_fitness, if_pos h1, h2]
  · intro h
    rw [Solution.get_fitness] at h
    by_cases hb : (dlook t s.targets).isSome = true
    · rw [if_pos hb] at h
      cases ho : dlook t s.fitness with
      | none => rw [ho] at h; simp at h
      | some v => rw [ho] at h; simp at h
    · exact Option.not_isSome_iff_eq_none.mp hb

/-- Witness for C10: a declared but not yet evaluated target raises the
key-lookup error. -/
theorem get_fitness_declared_missing_witness :
    (Solution.init [("p", 1)] []).get_fitness "p" =
      Except.error (Err.keyError "p") :=
  (get_fitness_declared_missing (Solution.init [("p", 1)] []) "p").1
    (by decide) (by decide)

/-! ### comparedTo lemmas -/

theorem dlook_of_mem_pair {α : Type} {q : String × α} {d : Dict α}
    (hnd : NodupKeys d) (h : q ∈ d) : dlook q.1 d = some q.2 := by
  obtain ⟨k, v⟩ := q
  exact dlook_of_mem hnd h

theorem lookupE_some {α : Type} {d : Dict α} {k : String} {v : α}
    (h : dlook k d = some v) : lookupE d k = Except.ok v := by
  rw [lookupE, h]

theorem lookupE_error {α : Type} {d : Dict α} {k : String} {e : Err}
    (h : lookupE d k = Except.error e) : e = Err.keyError k := by
  rw [lookupE] at h
  cases ho : dlook k d with
  | none =>
    rw [ho] at h
    injection h with h2
    exact h2.symm
  | some v =>
    rw [ho] at h
    cases h

theorem compDiffs_error_keyError (a b : Solution) :
    ∀ (l : Dict Int) (e : Err),
      compDiffs a b l = Except.error e → ∃ k, e = Err.keyError k := by
  intro l
  induction l with
  | nil => intro e h; cases h
  | cons q qs ih =>
    intro e h
    rw [compDiffs] at h
    cases h1 : lookupE a.targets q.1 with
    | error e1 =>
      simp only [h1] at h
      injection h with h2
      exact ⟨q.1, h2 ▸ lookupE_error h1⟩
    | ok sa =>
      simp only [h1] at h
      cases h2 : lookupE b.fitness q.1 with
      | error e2 =>
        simp only [h2] at h
        injection h with h3
        exact ⟨q.1, h3 ▸ lookupE_error h2⟩
      | ok fbv =>
        simp only [h2] at h
        cases h3 : lookupE b.targets q.1 with
        | error e3 =>
          simp only [h3] at h
          injection h with h4
          exact ⟨q.1, h4 ▸ lookupE_error h3⟩
        | ok tb =>
          simp only [h3] at h
          cases h4 : compDiffs a b qs with
          | error e4 =>
            simp only [h4] at h
            injection h with h5
            exact h5 ▸ ih e4 h4
          | ok rest =>
            simp only [h4] at h
            cases h

theorem comparedTo_guard1_pass (a b : Solution)
    (h : ∀ p ∈ a.targets, p ∈ b.targets) :
    (a.targets.filter (fun p => decide (p ∈ b.targets))).length =
      a.targets.length :=
  congrArg List.length
    (List.filter_eq_self.mpr fun p hp => decide_eq_true (h p hp))

theorem comparedTo_guard1_fail (a b : Solution)
    (h : ¬ ∀ p ∈ a.targets, p ∈ b.targets) :
    (a.targets.filter (fun p => decide (p ∈ b.targets))).length ≠
      a.targets.length := by
  intro hc
  apply h
  intro p hp
  have hfe : a.targets.filter (fun p => decide (p ∈ b.targets)) = a.targets :=
    (List.filter_sublist a.targets).eq_of_length hc
  exact of_decide_eq_true (List.filter_eq_self.mp hfe p hp)

theorem comparedTo_eval (a b : Solution)
    (h1 : (a.targets.filter (fun p => decide (p ∈ b.targets))).length =
      a.targets.length)
    (h2 : a.fitness.length = b.fitness.length)
    {l : List Int} (h3 : compDiffs a b a.fitness = Except.ok l) :
    a.comparedTo b = Except.ok
      ((l.countP (fun d => decide (0 < d)) : Int) -
       (l.countP (fun d => decide (d < 0)) : Int)) := by
  unfold Solution.comparedTo
  rw [if_neg (not_not_intro h1), if_neg (not_not_intro h2), h3]

theorem comparedTo_notComparable_core (a b : Solution) :
    a.comparedTo b = Except.error Err.notComparable ↔
      (¬ ∀ p ∈ a.targets, p ∈ b.targets) ∨
        a.fitness.length ≠ b.fitness.length := by
  unfold Solution.comparedTo
  by_cases h1 : ∀ p ∈ a.targets, p ∈ b.targets
  · rw [if_neg (not_not_intro (comparedTo_guard1_pass a b h1))]
    by_cases h2 : a.fitness.length ≠ b.fitness.length
    · rw [if_pos h2]
      exact ⟨fun _ => Or.inr h2, fun _ => rfl⟩
    · rw [if_neg h2]
      constructor
      · intro hc
        cases h4 : compDiffs a b a.fitness with
        | error e =>
          simp only [h4] at hc
          injection hc with h5
          obtain ⟨k, hk⟩ := compDiffs_error_keyError a b a.fitness e h4
          rw [hk] at h5
          cases h5
        | ok diffs =>
          simp only [h4] at hc
          cases hc
      · intro hor
        rcases hor with hx | hx
        · exact absurd h1 hx
        · exact absurd hx h2
  · rw [if_pos (comparedTo_guard1_fail a b h1)]
    exact ⟨fun _ => Or.inl h1, fun _ => rfl⟩

theorem compDiffs_map (a b : Solution) (g : String × Int → Int) :
    ∀ l : Dict Int,
      (∀ q ∈ l, ∃ sa fbv tb, dlook q.1 a.targets = some sa ∧
        dlook q.1 b.fitness = some fbv ∧ dlook q.1 b.targets = some tb ∧
        q.2 * sa - fbv * tb = g q) →
      compDiffs a b l = Except.ok (l.map g) := by
  intro l
  induction l with
  | nil => intro h; rfl
  | cons q qs ih =>
    intro h
    obtain ⟨sa, fbv, tb, h1, h2, h3, h4⟩ := h q (List.mem_cons_self _ _)
    rw [compDiffs, lookupE_some h1, lookupE_some h2, lookupE_some h3,
      ih (fun r hr => h r (List.mem_cons_of_mem _ hr))]
    show Except.ok ((q.2 * sa - fbv * tb) :: qs.map g) =
      Except.ok (g q :: qs.map g)
    rw [h4]

/-- C1: for two solutions with identical target mappings (distinct keys,
pointwise equal lookups) that are fully evaluated (fitness recorded for
every declared target, keys within the declared targets), comparedTo
returns a_up - b_up, where a_up counts the targets whose
direction-normalized fitness difference is strictly positive and b_up
those where it is strictly negative. -/
theorem comparedTo_counts_dominance (a b : Solution) (fa fb : String → Int)
    (hnda : NodupKeys a.targets) (hndb : NodupKeys b.targets)
    (hndaf : NodupKeys a.fitness) (hndbf : NodupKeys b.fitness)
    (ht : ∀ k, dlook k a.targets = dlook k b.targets)
    (hinva : FitnessInv a) (hinvb : FitnessInv b)
    (hfa : ∀ p ∈ a.targets, dlook p.1 a.fitness = some (fa p.1))
    (hfb : ∀ p ∈ b.targets, dlook p.1 b.fitness = some (fb p.1)) :
    a.comparedTo b = Except.ok
      ((a.targets.countP
          (fun p => decide (0 < fa p.1 * p.2 - fb p.1 * p.2)) : Int) -
       (a.targets.countP
          (fun p => decide (fa p.1 * p.2 - fb p.1 * p.2 < 0)) : Int)) := by
  have hsub : ∀ p ∈ a.targets, p ∈ b.targets := by
    intro p hp
    have h1 := dlook_of_mem_pair hnda hp
    have h2 : dlook p.1 b.targets = some p.2 := by
      rw [← ht p.1]
      exact h1
    exact dlook_mem h2
  have hKat : ∀ k, k ∈ keysD a.fitness ↔ k ∈ keysD a.targets := by
    intro k
    constructor
    · intro hk
      rcases List.mem_map.mp hk with ⟨q, hq, hqk⟩
      exact hqk ▸ hinva q hq
    · intro hk
      rcases List.mem_map.mp hk with ⟨p, hp, hpk⟩
      subst hpk
      exact dlook_isSome_iff.mp (by rw [hfa p hp]; rfl)
  have hKbt : ∀ k, k ∈ keysD b.fitness ↔ k ∈ keysD b.targets := by
    intro k
    constructor
    · intro hk
      rcases List.mem_map.mp hk with ⟨q, hq, hqk⟩
      exact hqk ▸ hinvb q hq
    · intro hk
      rcases List.mem_map.mp hk with ⟨p, hp, hpk⟩
      subst hpk
      exact dlook_isSome_iff.mp (by rw [hfb p hp]; rfl)
  have hKab : ∀ k, k ∈ keysD a.targets ↔ k ∈ keysD b.targets := by
    intro k
    rw [← dlook_isSome_iff, ← dlook_isSome_iff, ht k]
  have permA : (keysD a.fitness).Perm (keysD a.targets) :=
    (List.perm_ext_iff_of_nodup hndaf hnda).mpr hKat
  have permB : (keysD b.fitness).Perm (keysD b.targets) :=
    (List.perm_ext_iff_of_nodup hndbf hndb).mpr hKbt
  have permT : (keysD a.targets).Perm (keysD b.targets) :=
    (List.perm_ext_iff_of_nodup hnda hndb).mpr hKab
  have hlenf : a.fitness.length = b.fitness.length := by
    have e1 : (keysD a.fitness).length = a.fitness.length := by
      rw [keysD, List.length_map]
    have e2 : (keysD b.fitness).length = b.fitness.length := by
      rw [keysD, List.length_map]
    have h1 := permA.length_eq
    have h2 := permB.length_eq
    have h3 := permT.length_eq
    omega
  have hdiffs : compDiffs a b a.fitness = Except.ok
      (a.fitness.map (fun q =>
        fa q.1 * (dlook q.1 a.targets).getD 0 -
        fb q.1 * (dlook q.1 a.targets).getD 0)) := by
    apply compDiffs_map
    intro q hq
    have hkt : q.1 ∈ keysD a.targets := hinva q hq
    have hsome : (dlook q.1 a.targets).isSome = true := dlook_isSome_iff.mpr hkt
    cases hd : dlook q.1 a.targets with
    | none => rw [hd] at hsome; cases hsome
    | some d =>
      have hbt : dlook q.1 b.targets = some d := by
        rw [← ht q.1]
        exact hd
      have hpa : (q.1, d) ∈ a.targets := dlook_mem hd
      have hfa1 : dlook q.1 a.fitness = some (fa q.1) := hfa (q.1, d) hpa
      have hq2 : q.2 = fa q.1 := by
        have hqq := dlook_of_mem_pair hndaf hq
        rw [hfa1] at hqq
        exact (Option.some_inj.mp hqq).symm
      have hpb : (q.1, d) ∈ b.targets := dlook_mem hbt
      have hfb1 : dlook q.1 b.fitness = some (fb q.1) := hfb (q.1, d) hpb
      refine ⟨d, fb q.1, d, rfl, hfb1, hbt, ?_⟩
      rw [hq2]
      rfl
  rw [comparedTo_eval a b (comparedTo_guard1_pass a b hsub) hlenf hdiffs]
  have hcount : ∀ p : Int → Bool,
      (a.fitness.map (fun q =>
        fa q.1 * (dlook q.1 a.targets).getD 0 -
        fb q.1 * (dlook q.1 a.targets).getD 0)).countP p =
      a.targets.countP (fun q => p (fa q.1 * q.2 - fb q.1 * q.2)) := by
    intro p
    rw [List.countP_map]
    have hstepA : a.fitness.countP
        (p ∘ fun q => fa q.1 * (dlook q.1 a.targets).getD 0 -
          fb q.1 * (dlook q.1 a.targets).getD 0) =
        (keysD a.fitness).countP (fun k =>
          p (fa k * (dlook k a.targets).getD 0 -
            fb k * (dlook k a.targets).getD 0)) := by
      rw [keysD, List.countP_map]
      rfl
    have hstepB : (keysD a.targets).countP (fun k =>
        p (fa k * (dlook k a.targets).getD 0 -
          fb k * (dlook k a.targets).getD 0)) =
        a.targets.countP (fun q =>
          p (fa q.1 * (dlook q.1 a.targets).getD 0 -
            fb q.1 * (dlook q.1 a.targets).getD 0)) := by
      rw [keysD, List.countP_map]
      rfl
    rw [hstepA, permA.countP_eq, hstepB]
    apply List.countP_congr
    intro q hq
    have hdq : dlook q.1 a.targets = some q.2 := dlook_of_mem_pair hnda hq
    rw [hdq]
    rfl
  rw [hcount, hcount]

/-- Witness for C1: the spec's dominance example — targets a maximized and
b minimized, fitness (10, 5) against (8, 5) — yields 1. -/
theorem comparedTo_counts_dominance_witness :
    Solution.comparedTo
      (Solution.mk [("a", 1), ("b", -1)] [("a", 10), ("b", 5)] [])
      (Solution.mk [("a", 1), ("b", -1)] [("a", 8), ("b", 5)] []) =
      Except.ok 1 := by
  have h := comparedTo_counts_dominance
    (Solution.mk [("a", 1), ("b", -1)] [("a", 10), ("b", 5)] [])
    (Solution.mk [("a", 1), ("b", -1)] [("a", 8), ("b", 5)] [])
    (fun k => if k = "a" then 10 else 5)
    (fun k => if k = "a" then 8 else 5)
    (by unfold NodupKeys; decide) (by unfold NodupKeys; decide)
    (by unfold NodupKeys; decide) (by unfold NodupKeys; decide)
    (fun k => rfl)
    (by unfold FitnessInv; decide) (by unfold FitnessInv; decide)
    (by decide) (by decide)
  exact h.trans (by rfl)

/-- C2 counterexample: b's targets are a strict superset of a's — "y" is
declared only in b — yet comparedTo succeeds with value 1 instead of
failing with the not-comparable error. -/
theorem comparedTo_superset_proceeds :
    dlook "y" (Solution.mk [("x", 1)] [("x", 1)] []).targets = none ∧
    dlook "y" (Solution.mk [("x", 1), ("y", 1)] [("x", 0)] []).targets =
      some 1 ∧
    Solution.comparedTo (Solution.mk [("x", 1)] [("x", 1)] [])
      (Solution.mk [("x", 1), ("y", 1)] [("x", 0)] []) = Except.ok 1 :=
  ⟨rfl, rfl, rfl⟩

/-- C2 (amended): comparedTo fails with the not-comparable error iff some
(name, direction) pair of a.targets is absent from b.targets — the guard
checks containment of a's items in b's, not equality — or the two fitness
entry counts differ; in particular it proceeds when b.targets is a strict
superset of a.targets. -/
theorem comparedTo_notComparable_iff (a b : Solution) :
    a.comparedTo b = Except.error Err.notComparable ↔
      (¬ ∀ p ∈ a.targets, p ∈ b.targets) ∨
        a.fitness.length ≠ b.fitness.length :=
  comparedTo_notComparable_core a b

/-- Witness for the amended C2: a's single target pair is absent from b's
targets, and comparedTo indeed fails as not comparable. -/
theorem comparedTo_notComparable_iff_witness :
    Solution.comparedTo (Solution.mk [("x", 1)] [] [])
      (Solution.mk [("x", -1)] [] []) = Except.error Err.notComparable :=
  (comparedTo_notComparable_iff (Solution.mk [("x", 1)] [] [])
      (Solution.mk [("x", -1)] [] [])).mpr
    (Or.inl (by decide))

/-- C3: for solutions with identical target mappings, comparedTo fails
with the not-comparable error iff the two fitness dicts have different
entry counts; matching counts with different key sets never raise this
error (the later failure, if any, is a KeyError). -/
theorem comparedTo_count_only_check (a b : Solution)
    (hnda : NodupKeys a.targets)
    (ht : ∀ k, dlook k a.targets = dlook k b.targets) :
    a.comparedTo b = Except.error Err.notComparable ↔
      a.fitness.length ≠ b.fitness.length := by
  rw [comparedTo_notComparable_core]
  constructor
  · intro h
    rcases h with h1 | h2
    · exfalso
      apply h1
      intro p hp
      have hpa := dlook_of_mem_pair hnda hp
      have hpb : dlook p.1 b.targets = some p.2 := by
        rw [← ht p.1]
        exact hpa
      exact dlook_mem hpb
    · exact h2
  · exact Or.inr

/-- Witness for C3: identical targets, one fitness entry each but under
different keys — no not-comparable error is raised. -/
theorem comparedTo_count_only_check_witness :
    ¬ (Solution.comparedTo
        (Solution.mk [("x", 1), ("y", 1)] [("x", 1)] [])
        (Solution.mk [("x", 1), ("y", 1)] [("y", 2)] []) =
      Except.error Err.notComparable) := by
  have h := comparedTo_count_only_check
    (Solution.mk [("x", 1), ("y", 1)] [("x", 1)] [])
    (Solution.mk [("x", 1), ("y", 1)] [("y", 2)] [])
    (by unfold NodupKeys; decide) (fun k => rfl)
  intro hc
  exact (h.mp hc) rfl

/-- C4: each relational operator is determined by the sign of a
successful comparedTo: eq iff 0, lt iff negative, gt iff positive, le iff
non-positive, ge iff non-negative. -/
theorem relational_ops_sign (a b : Solution) (c : Int)
    (h : a.comparedTo b = Except.ok c) :
    a.eqOp b = Except.ok (decide (c = 0)) ∧
    a.ltOp b = Except.ok (decide (c < 0)) ∧
    a.gtOp b = Except.ok (decide (0 < c)) ∧
    a.leOp b = Except.ok (decide (c ≤ 0)) ∧
    a.geOp b = Except.ok (decide (0 ≤ c)) := by
  refine ⟨?_, ?_, ?_, ?_, ?_⟩
  · rw [Solution.eqOp, h]
    by_cases hc : c = 0 <;> simp [hc]
  · rw [Solution.ltOp, h]
    by_cases hc : c < 0 <;> simp [hc]
  · rw [Solution.gtOp, h]
    by_cases hc : 0 < c <;> simp [hc]
  · rw [Solution.leOp, h]
    by_cases hc : c ≤ 0 <;> simp [hc]
  · rw [Solution.geOp, h]
    by_cases hc : 0 ≤ c <;> simp [hc]

/-- Witness for C4: the balanced case — both targets maximized, fitness
(10, 1) against (1, 10) — gives comparedTo 0 and therefore equality even
though no fitness value matches. -/
theorem relational_ops_sign_witness :
    Solution.eqOp
      (Solution.mk [("a", 1), ("b", 1)] [("a", 10), ("b", 1)] [])
      (Solution.mk [("a", 1), ("b", 1)] [("a", 1), ("b", 10)] []) =
      Except.ok true := by
  have h := relational_ops_sign
    (Solution.mk [("a", 1), ("b", 1)] [("a", 10), ("b", 1)] [])
    (Solution.mk [("a", 1), ("b", 1)] [("a", 1), ("b", 10)] [])
    0 rfl
  exact h.1.trans (by rfl)
